import Mathlib

/-!
Verification development for a RAG (retrieval-augmented generation) MCP server.

The embedded components, translated from the repository's Python sources:
* `tool_helpers/rag_ingest_helpers.py`: `init_chroma_db`, `extract_text`,
  `find_and_scan`, `chunk_and_vectorize`, `push_to_db`,
  `ingest_documents_pipeline`;
* `tool_helpers/rag_retrieval_helpers.py`: `vectorize_user_query`,
  `cosine_similarity_and_retrieve`;
* `mcp_server.py`: the `ingest_documents` and `retrieve_relevant_chunks`
  tool wrappers.

External collaborators (the NLTK sentence tokenizer, `os.path` helpers, the
OpenCLIP encoder, and ChromaDB's nearest-neighbor index) are modelled as
function parameters; everything this repository computes itself is embedded
as executable Lean definitions.  Python strings are modelled as Lean
`String`s, with character-level helpers (`pyStrip`, `pyStartsWith`,
`joinSp`) defined to mirror the Python `str.strip`, `str.startswith` and
`" ".join` operations.  Wall-clock timestamps are modelled as natural
numbers counting seconds (matching `int(datetime.timestamp())`); embedding
scalars are modelled as real numbers.
-/

namespace RagMcp

/-! ### Character-level string helpers (Python `str` operations) -/

/-- The space character used by `" ".join`. -/
def spaceChar : Char := ' '

/-- Whitespace test used by Python's `str.strip`. -/
def wsp (c : Char) : Bool := c.isWhitespace

/-- `str.strip` on a character list: drop whitespace from both ends. -/
def stripChars (l : List Char) : List Char :=
  ((l.dropWhile wsp).reverse.dropWhile wsp).reverse

/-- Python `s.strip()` on a `String`. -/
def pyStrip (s : String) : String := ⟨stripChars s.data⟩

/-- Python `" ".join(parts)` on character lists. -/
def joinCharsSp : List (List Char) → List Char
  | [] => []
  | [a] => a
  | a :: b :: t => a ++ spaceChar :: joinCharsSp (b :: t)

/-- Python `" ".join(parts)` on `String`s. -/
def joinSp (l : List String) : String := ⟨joinCharsSp (l.map String.data)⟩

/-- Python `s.startswith(p)`. -/
def pyStartsWith (s p : String) : Bool := p.data.isPrefixOf s.data

/-! ### Injectivity of the decimal rendering `Nat.repr`

`init_chroma_db` derives collection names from integer timestamps via
Python's decimal formatting, whose Lean counterpart is `Nat.repr`.  The
claims about distinct collection names need `Nat.repr` to be injective,
which we prove by exhibiting the evaluation map `charsVal` as a left
inverse on the digit strings it produces. -/

/-- Numeric value of a decimal digit character. -/
def digitVal (c : Char) : Nat := c.toNat - 48

/-- Value of a big-endian decimal digit string. -/
def charsVal (l : List Char) : Nat := l.foldl (fun a c => 10 * a + digitVal c) 0

/-! ### Chunker (`chunk_and_vectorize`, sentence grouping part)

`chunk_and_vectorize` segments a document with `nltk.sent_tokenize`
(external, modelled as a parameter) and then groups the sentences:

    chunk_size = 4
    for i in range(0, len(sentences), chunk_size):
        chunk_text = " ".join(sentences[i:i + chunk_size])
        if chunk_text.strip():
            chunks.append(chunk_text.strip())
-/

/-- `chunk_size = 4` from `chunk_and_vectorize`. -/
def chunkSize : Nat := 4

/-- The consecutive windows `l[i:i+n]` for `i in range(0, len(l), n)`
(specification-side view of the grouping loop). -/
def windows (n : Nat) : List α → List (List α)
  | [] => []
  | a :: rest => ((a :: rest).take n) :: windows n (rest.drop (n - 1))
termination_by l => l.length
decreasing_by simp [List.length_drop]; omega

/-- The sentence-grouping loop of `chunk_and_vectorize`, with an explicit
fuel argument as a structural-termination device (each iteration consumes
at least one sentence, so any fuel `≥ length` gives the loop's behavior;
the fuel-exhaustion case is unreachable at the call site below): windows
of 4 sentences joined with single spaces, stripped, empty results
dropped. -/
def buildChunksF : Nat → List String → List String
  | _, [] => []
  | 0, _ => []
  | fuel + 1, s :: rest =>
    let chunkText := joinSp ((s :: rest).take chunkSize)
    let tail := buildChunksF fuel (rest.drop (chunkSize - 1))
    if pyStrip chunkText = "" then tail else pyStrip chunkText :: tail

/-- The sentence-grouping loop of `chunk_and_vectorize`
(`for i in range(0, len(sentences), chunk_size)`). -/
def buildChunks (sents : List String) : List String :=
  buildChunksF sents.length sents

/-! ### Text extraction and scanning (`extract_text`, `find_and_scan`) -/

/-- Outcome of `open(...).read()` on an existing file: the raw content, or
the message of a raised I/O/decoding exception. -/
inductive ReadOutcome where
  | ok (content : String)
  | failed (msg : String)
deriving DecidableEq

/-- What the filesystem holds at a path: nothing (`os.path.exists` is
false), or a file whose read has a fixed outcome. -/
inductive FileRes where
  | missing
  | present (r : ReadOutcome)
deriving DecidableEq

/-- `extract_text(file_path)` from `rag_ingest_helpers.py`.  The
filesystem `fs` and `os.path.splitext(p)[1].lower()` (as `extOf`) are
external collaborators passed as parameters. -/
def extract_text (fs : String → FileRes) (extOf : String → String) (p : String) : String :=
  match fs p with
  | .missing => "Error: File " ++ p ++ " not found"
  | .present r =>
    let ext := extOf p
    if ext = ".txt" ∨ ext = ".md" then
      match r with
      | .ok content => pyStrip content
      | .failed e => "Error reading file " ++ p ++ ": " ++ e
    else "Unsupported file format: " ++ ext

/-- The per-path record built by `find_and_scan` (the wall-clock
`extracted_at` field is omitted: it is `datetime.now()` metadata that no
further code reads). -/
structure Doc where
  file_path : String
  filename : String
  text_content : String
  file_size : Nat
deriving DecidableEq

/-- The record literal appended by `find_and_scan` for a successful path
(`basename` models `os.path.basename`). -/
def mkDoc (basename : String → String) (p t : String) : Doc :=
  { file_path := p, filename := basename p, text_content := t, file_size := t.length }

/-- `find_and_scan(file_paths)`: extract each path, keep the record when
the extracted text does not start with `"Error"`, otherwise skip (and
log). -/
def find_and_scan (fs : String → FileRes) (extOf basename : String → String) :
    List String → List Doc
  | [] => []
  | p :: rest =>
    let t := extract_text fs extOf p
    if pyStartsWith t "Error" then find_and_scan fs extOf basename rest
    else mkDoc basename p t :: find_and_scan fs extOf basename rest

/-! ### Embedder (OpenCLIP encode + L2 normalization)

`model.encode_text(tokenizer(texts))` is the external encoder, modelled as
`encode : String → List ℝ` (each row of the returned tensor depends only
on its own input text).  The repository's own normalization step
`text_features / text_features.norm(dim=-1, keepdim=True)` is embedded as
`l2normalize`. -/

/-- Euclidean norm of a vector, as computed by `tensor.norm(dim=-1)`. -/
noncomputable def l2norm (v : List ℝ) : ℝ :=
  Real.sqrt ((v.map fun x => x ^ 2).sum)

/-- `v / v.norm(dim=-1, keepdim=True)`: divide each coordinate by the
vector's own Euclidean norm (no special case for the zero vector). -/
noncomputable def l2normalize (v : List ℝ) : List ℝ :=
  v.map fun x => x / l2norm v

/-- `vectorize_user_query(user_query)` from `rag_retrieval_helpers.py`:
tokenize and encode the single-element batch `[user_query]`, normalize,
and return row 0. -/
noncomputable def vectorize_user_query (encode : String → List ℝ) (q : String) : List ℝ :=
  (([q].map encode).map l2normalize).headI

/-! ### Chunk vectorization (`chunk_and_vectorize`, batching part) -/

/-- One element of the `vectorized_chunks` list (the wall-clock
`created_at` field is omitted as in `Doc`). -/
structure ChunkInfo where
  chunk_id : String
  file_path : String
  filename : String
  chunk_text : String
  embedding : List ℝ
  chunk_index : Nat
  total_chunks : Nat

/-- The `chunk_info` dict literal of `chunk_and_vectorize`:
`chunk_id = f"{filename}_{chunk_idx}"`. -/
def mkInfo (doc : Doc) (total idx : Nat) (text : String) (emb : List ℝ) : ChunkInfo :=
  { chunk_id := doc.filename ++ "_" ++ Nat.repr idx
    file_path := doc.file_path
    filename := doc.filename
    chunk_text := text
    embedding := emb
    chunk_index := idx
    total_chunks := total }

/-- `batch_size = 32` from `chunk_and_vectorize`. -/
def batchSize : Nat := 32

/-- The inner `for i, embedding in enumerate(text_features)` loop: pair
each chunk of the batch with its feature row, at running global index. -/
def batchZip (doc : Doc) (total : Nat) : Nat → List String → List (List ℝ) → List ChunkInfo
  | _, [], _ => []
  | _, _ :: _, [] => []
  | i, t :: ts, e :: es => mkInfo doc total i t e :: batchZip doc total (i + 1) ts es

/-- The `for batch_start in range(0, len(chunks), batch_size)` loop, with
an explicit fuel argument as a structural-termination device (each batch
consumes at least one chunk, so any fuel `≥ length` gives the loop's
behavior): encode and normalize each batch of 32 chunks, emitting
`chunk_info` records at indices `batch_start + i`. -/
noncomputable def batchLoopF (encode : String → List ℝ) (doc : Doc) (total : Nat) :
    Nat → Nat → List String → List ChunkInfo
  | _, _, [] => []
  | 0, _, _ => []
  | fuel + 1, start, c :: rest =>
    let batch := (c :: rest).take batchSize
    let feats := batch.map fun t => l2normalize (encode t)
    batchZip doc total start batch feats ++
      batchLoopF encode doc total fuel (start + batchSize) (rest.drop (batchSize - 1))

/-- The batching loop of `chunk_and_vectorize`. -/
noncomputable def batchLoop (encode : String → List ℝ) (doc : Doc) (total : Nat)
    (start : Nat) (chunks : List String) : List ChunkInfo :=
  batchLoopF encode doc total chunks.length start chunks

/-- `chunk_and_vectorize(documents)`: per document, group sentences into
chunks (`buildChunks` over the external `sentTok = nltk.sent_tokenize`),
then embed nonempty chunk lists batchwise. -/
noncomputable def chunk_and_vectorize (encode : String → List ℝ)
    (sentTok : String → List String) (docs : List Doc) : List ChunkInfo :=
  docs.flatMap fun doc =>
    let chunks := buildChunks (sentTok doc.text_content)
    if chunks.isEmpty then [] else batchLoop encode doc chunks.length 0 chunks

/-! ### Vector store session (`init_chroma_db`, `push_to_db`)

The module globals `CHROMA_CLIENT`, `CHROMA_COLLECTION`, `DB_EXPIRY_TIME`
become an explicit state record threaded through the calls.  Timestamps
are seconds as naturals (`int(datetime.timestamp())`); the 20-minute TTL
is 1200 seconds.  The active collection's name is
`f"documents_{int(current_time.timestamp())}"`, i.e. `collName` of its
creation timestamp, which we carry in the state; its stored vectors are
the `contents` list (a fresh collection starts empty). -/

/-- The 20-minute TTL (`timedelta(minutes=20)`), in seconds. -/
def dbTTL : Nat := 1200

/-- The mutable module state of `rag_ingest_helpers.py`:
`CHROMA_CLIENT` present or not, the active collection (creation timestamp
and stored entries), and `DB_EXPIRY_TIME`. -/
structure DBState where
  hasClient : Bool
  created : Nat
  expiry : Nat
  contents : List ChunkInfo

/-- Initial module state: `CHROMA_CLIENT = None`, `DB_EXPIRY_TIME = 100`
(a bare int whose truthiness is all that ever matters, since the
comparison is short-circuited while no client exists). -/
def initState : DBState :=
  { hasClient := false, created := 0, expiry := 100, contents := [] }

/-- `f"documents_{ts}"`, the timestamp-derived collection name. -/
def collName (ts : Nat) : String := "documents_" ++ Nat.repr ts

/-- `init_chroma_db()`: keep the active collection while
`CHROMA_CLIENT and DB_EXPIRY_TIME and current_time < DB_EXPIRY_TIME`,
otherwise create a fresh collection named after `now` and reset the
expiry to `now + 20 minutes`.  Returns the new state and the creation
timestamp of the returned collection (whose name is `collName` of it). -/
def init_chroma_db (now : Nat) (s : DBState) : DBState × Nat :=
  if s.hasClient = true ∧ s.expiry ≠ 0 ∧ now < s.expiry then (s, s.created)
  else ({ hasClient := true, created := now, expiry := now + dbTTL, contents := [] }, now)

/-- Run a sequence of `init_chroma_db` accesses at the given times,
collecting the creation timestamp of the collection each access returns. -/
def runAccs : DBState → List Nat → DBState × List Nat
  | s, [] => (s, [])
  | s, t :: ts =>
    let r := init_chroma_db t s
    let rest := runAccs r.1 ts
    (rest.1, r.2 :: rest.2)

/-- The collection names returned by a sequence of accesses. -/
def runNames (s : DBState) (ts : List Nat) : List String :=
  (runAccs s ts).2.map collName

/-- Result dict of the ingestion-side functions:
`{"status": "success"|"error", "message": ..., "chunks_count": ...,
"collection_name": ...}`. -/
inductive PipeResult where
  | ok (message : String) (chunks_count : Nat) (collection_name : String)
  | err (message : String)

/-- `push_to_db(vectorized_chunks)`: resolve the active collection, fail
on an empty batch, then `collection.add(...)` — whose outcome (`addErr`:
exception message, or success) is the external index's behavior.  On
success the entries are appended to the active collection's contents. -/
def push_to_db (now : Nat) (addErr : Option String) (s : DBState)
    (chunks : List ChunkInfo) : DBState × PipeResult :=
  let r := init_chroma_db now s
  if chunks.isEmpty then (r.1, .err "No chunks to store")
  else
    match addErr with
    | some e => (r.1, .err ("Error storing in vector DB: " ++ e))
    | none =>
      ({ r.1 with contents := r.1.contents ++ chunks },
        .ok ("Successfully stored " ++ Nat.repr chunks.length ++ " chunks in vector DB")
          chunks.length (collName r.2))

/-- `ingest_documents_pipeline(file_paths)`: scan, then chunk+vectorize,
then push; an empty result of either early stage returns an error without
touching the store. -/
noncomputable def ingest_documents_pipeline (fs : String → FileRes)
    (extOf basename : String → String) (encode : String → List ℝ)
    (sentTok : String → List String) (now : Nat) (addErr : Option String)
    (s : DBState) (paths : List String) : DBState × PipeResult :=
  let docs := find_and_scan fs extOf basename paths
  if docs.isEmpty then (s, .err "No documents could be processed")
  else
    let vchunks := chunk_and_vectorize encode sentTok docs
    if vchunks.isEmpty then (s, .err "No chunks could be vectorized")
    else push_to_db now addErr s vchunks

/-- The `ingest_documents` MCP tool wrapper (`mcp_server.py`): reject an
empty path list, otherwise run the pipeline and render its result. -/
noncomputable def ingest_documents (fs : String → FileRes)
    (extOf basename : String → String) (encode : String → List ℝ)
    (sentTok : String → List String) (now : Nat) (addErr : Option String)
    (s : DBState) (paths : List String) : DBState × String :=
  if paths = [] then (s, "Error: No file paths provided for ingestion")
  else
    let r := ingest_documents_pipeline fs extOf basename encode sentTok now addErr s paths
    match r.2 with
    | .ok m c n =>
      (r.1, "✅ " ++ m ++ "\n📊 Processed " ++ Nat.repr paths.length ++
        " files into " ++ Nat.repr c ++ " chunks\n🗂️ Collection: " ++ n)
    | .err m => (r.1, "❌ Ingestion failed: " ++ m)

/-! ### Retrieval (`cosine_similarity_and_retrieve`, MCP wrapper) -/

/-- Metadata stored per chunk by `push_to_db` and echoed by queries. -/
structure ChunkMeta where
  file_path : String
  filename : String
  chunk_index : Nat
  total_chunks : Nat
deriving DecidableEq

/-- One hit of `collection.query(...)`: aligned entry of the returned
`ids`/`documents`/`metadatas`/`distances` lists (cosine distance as a
rational). -/
structure QueryHit where
  id : String
  document : String
  metadata : ChunkMeta
  distance : ℚ
deriving DecidableEq

/-- One element of `retrieved_chunks`. -/
structure RetrievedChunk where
  chunk_id : String
  chunk_text : String
  similarity_score : ℚ
  metadata : ChunkMeta
deriving DecidableEq

/-- Result dict of the retrieval-side functions. -/
inductive RetrievalResult where
  | error (message : String)
  | success (query : String) (total_chunks_searched : Nat) (chunks : List RetrievedChunk)
deriving DecidableEq

/-- The `for i, chunk_id in enumerate(ids)` deduplication loop: keep a
hit only when its id is not in `seen_chunk_ids`, converting distance to
`similarity_score = 1.0 - distance`. -/
def dedupLoop : List QueryHit → List String → List RetrievedChunk
  | [], _ => []
  | h :: rest, seen =>
    if h.id ∈ seen then dedupLoop rest seen
    else
      { chunk_id := h.id, chunk_text := h.document,
        similarity_score := 1 - h.distance, metadata := h.metadata } ::
        dedupLoop rest (h.id :: seen)

/-- `cosine_similarity_and_retrieve(user_query, top_k)`: resolve the
active collection, fail when it holds zero vectors, embed the query, ask
the index (`search`, ChromaDB's nearest-neighbor query, an external
collaborator) for `min(top_k, collection_count)` results, and deduplicate
by chunk id. -/
noncomputable def cosine_similarity_and_retrieve (encode : String → List ℝ)
    (search : List ℝ → Nat → List QueryHit) (now : Nat) (s : DBState)
    (q : String) (top_k : Nat) : DBState × RetrievalResult :=
  let r := init_chroma_db now s
  let count := r.1.contents.length
  if count = 0 then (r.1, .error "No documents found in vector database")
  else
    let emb := vectorize_user_query encode q
    let hits := search emb (min top_k count)
    (r.1, .success q count (dedupLoop hits []))

/-- `retrieve_documents_pipeline(user_query, top_k)`: a logging wrapper
that forwards to `cosine_similarity_and_retrieve` unchanged. -/
noncomputable def retrieve_documents_pipeline (encode : String → List ℝ)
    (search : List ℝ → Nat → List QueryHit) (now : Nat) (s : DBState)
    (q : String) (top_k : Nat) : DBState × RetrievalResult :=
  cosine_similarity_and_retrieve encode search now s q top_k

/-- The `retrieve_relevant_chunks` MCP tool wrapper (`mcp_server.py`):
`if not user_question or not user_question.strip()` reject, else call the
retrieval pipeline (`pipe`, with the ambient store state applied) on the
stripped question and render its result (`fmt`, the JSON formatting
block). -/
def retrieve_relevant_chunks (fmt : RetrievalResult → String)
    (pipe : String → Nat → RetrievalResult) (q : String) (top_k : Nat) : String :=
  if q = "" ∨ pyStrip q = "" then "❌ Error: No user question provided for retrieval"
  else fmt (pipe (pyStrip q) top_k)

/-! ### Concrete fixtures used to instantiate theorems -/

/-- A concrete stored-chunk metadata record. -/
def wMeta : ChunkMeta :=
  { file_path := "p", filename := "f", chunk_index := 0, total_chunks := 1 }

/-- A concrete stored chunk. -/
def wChunkInfo : ChunkInfo :=
  { chunk_id := "f_0", file_path := "p", filename := "f", chunk_text := "t",
    embedding := [], chunk_index := 0, total_chunks := 1 }

/-- A store state holding one vector in an unexpired collection. -/
def wState : DBState :=
  { hasClient := true, created := 0, expiry := 1200, contents := [wChunkInfo] }

/-- Two concrete query hits sharing one chunk id. -/
def wHit : QueryHit := { id := "a", document := "da", metadata := wMeta, distance := 1/2 }

/-- Second hit with the same id as `wHit`. -/
def wHit2 : QueryHit := { id := "a", document := "db", metadata := wMeta, distance := 3/4 }

/-- A concrete one-sentence document. -/
def wDoc : Doc :=
  { file_path := "p", filename := "f", text_content := "Hello.", file_size := 6 }

/-! ## Theorems -/

theorem charsVal_append_singleton (l : List Char) (c : Char) :
    charsVal (l ++ [c]) = 10 * charsVal l + digitVal c := by
  simp [charsVal, List.foldl_append]

theorem digitVal_digitChar (d : Nat) (h : d < 10) :
    digitVal (Nat.digitChar d) = d := by
  interval_cases d <;> rfl

theorem toDigitsCore_append (fuel : Nat) :
    ∀ (n : Nat) (acc : List Char),
      Nat.toDigitsCore 10 fuel n acc = Nat.toDigitsCore 10 fuel n [] ++ acc := by
  induction fuel with
  | zero => intro n acc; simp [Nat.toDigitsCore]
  | succ f ih =>
    intro n acc
    simp only [Nat.toDigitsCore]
    by_cases h : n / 10 = 0
    · simp [h]
    · simp only [h, if_neg h]
      rw [ih (n / 10) (Nat.digitChar (n % 10) :: acc),
        ih (n / 10) [Nat.digitChar (n % 10)]]
      simp

theorem charsVal_toDigitsCore (fuel : Nat) :
    ∀ n : Nat, n < fuel → charsVal (Nat.toDigitsCore 10 fuel n []) = n := by
  induction fuel with
  | zero => intro n h; omega
  | succ f ih =>
    intro n h
    simp only [Nat.toDigitsCore]
    by_cases h0 : n / 10 = 0
    · have hn : n < 10 := by omega
      simp [h0, charsVal, Nat.mod_eq_of_lt hn, digitVal_digitChar n hn]
    · have hge : 10 ≤ n := by
        by_contra hc
        exact h0 (Nat.div_eq_of_lt (by omega))
      have hdiv : n / 10 < f := by
        have := Nat.div_lt_self (show 0 < n by omega) (show 1 < 10 by omega)
        omega
      rw [if_neg h0]
      rw [toDigitsCore_append f (n / 10) [Nat.digitChar (n % 10)],
        charsVal_append_singleton, ih (n / 10) hdiv,
        digitVal_digitChar (n % 10) (Nat.mod_lt _ (by omega))]
      omega

theorem nat_repr_injective : Function.Injective Nat.repr := by
  intro m n h
  have hd : Nat.toDigits 10 m = Nat.toDigits 10 n := by
    have : (Nat.toDigits 10 m).asString.data = (Nat.toDigits 10 n).asString.data := by
      rw [show (Nat.toDigits 10 m).asString = Nat.repr m from rfl,
        show (Nat.toDigits 10 n).asString = Nat.repr n from rfl, h]
    simpa [List.asString] using this
  have hm := charsVal_toDigitsCore (m + 1) m (Nat.lt_succ_self m)
  have hn := charsVal_toDigitsCore (n + 1) n (Nat.lt_succ_self n)
  rw [show Nat.toDigitsCore 10 (m + 1) m [] = Nat.toDigits 10 m from rfl] at hm
  rw [show Nat.toDigitsCore 10 (n + 1) n [] = Nat.toDigits 10 n from rfl] at hn
  rw [← hm, ← hn, hd]

/-- Collection names derived from distinct timestamps are distinct. -/
theorem collName_injective : Function.Injective collName := by
  intro a b h
  have hd : ("documents_" ++ Nat.repr a).data = ("documents_" ++ Nat.repr b).data :=
    congrArg String.data h
  simp only [String.data_append] at hd
  have : (Nat.repr a).data = (Nat.repr b).data := List.append_cancel_left hd
  exact nat_repr_injective (congrArg String.mk this)

/-! ### Scanner theorems (C4, C5) -/

/-- C4.  For every ordered list of input paths, `find_and_scan` attempts
extraction on each path independently and returns exactly one `Doc` per
path whose extraction succeeded (text not starting with `"Error"`),
preserving the input order among successes; a failing path is skipped
without aborting the batch, and a batch in which every path fails
returns the empty list rather than an error. -/
theorem claim_C4_scanner_batch (fs : String → FileRes) (extOf basename : String → String)
    (paths : List String) :
    find_and_scan fs extOf basename paths =
      (paths.filter fun p => !(pyStartsWith (extract_text fs extOf p) "Error")).map
        (fun p => mkDoc basename p (extract_text fs extOf p)) ∧
    ((∀ p ∈ paths, pyStartsWith (extract_text fs extOf p) "Error" = true) →
      find_and_scan fs extOf basename paths = []) := by
  have hfilter : find_and_scan fs extOf basename paths =
      (paths.filter fun p => !(pyStartsWith (extract_text fs extOf p) "Error")).map
        (fun p => mkDoc basename p (extract_text fs extOf p)) := by
    induction paths with
    | nil => rfl
    | cons p rest ih =>
      by_cases h : pyStartsWith (extract_text fs extOf p) "Error" = true <;>
        simp [find_and_scan, h, ih, List.filter_cons]
  refine ⟨hfilter, fun hall => ?_⟩
  rw [hfilter]
  have : (paths.filter fun p => !(pyStartsWith (extract_text fs extOf p) "Error")) = [] := by
    rw [List.filter_eq_nil_iff]
    intro p hp
    simp [hall p hp]
  rw [this, List.map_nil]

/-- Witness for C4: a batch whose single path is missing on disk fails
entirely and yields the empty document list. -/
theorem claim_C4_witness :
    (∀ p ∈ ["a"], pyStartsWith
        (extract_text (fun _ => FileRes.missing) (fun _ => "") p) "Error" = true) ∧
    find_and_scan (fun _ => FileRes.missing) (fun _ => "") (fun _ => "") ["a"] = [] :=
  ⟨by decide,
    (claim_C4_scanner_batch (fun _ => FileRes.missing) (fun _ => "") (fun _ => "") ["a"]).2
      (by decide)⟩

/-- C5.  A path yields a `Doc` iff the extractor's returned string does
not start with `"Error"`; an existing file with an unsupported extension
yields the text `"Unsupported file format: <ext>"`, which never starts
with `"Error"` and is therefore kept, while a successfully read supported
file is reduced to its stripped content — so a stripped content that
itself begins with `"Error"` is skipped as though extraction failed. -/
theorem claim_C5_error_prefix_filter (fs : String → FileRes)
    (extOf basename : String → String) (paths : List String) (p : String) :
    ((∃ d ∈ find_and_scan fs extOf basename paths, d.file_path = p) ↔
      (p ∈ paths ∧ pyStartsWith (extract_text fs extOf p) "Error" = false)) ∧
    (∀ e : String, pyStartsWith ("Unsupported file format: " ++ e) "Error" = false) ∧
    (∀ r, fs p = FileRes.present r → extOf p ≠ ".txt" → extOf p ≠ ".md" →
      extract_text fs extOf p = "Unsupported file format: " ++ extOf p) ∧
    (∀ c, fs p = FileRes.present (ReadOutcome.ok c) →
      (extOf p = ".txt" ∨ extOf p = ".md") →
      extract_text fs extOf p = pyStrip c) := by
  refine ⟨?_, ?_, ?_, ?_⟩
  · induction paths with
    | nil => simp [find_and_scan]
    | cons q rest ih =>
      by_cases h : pyStartsWith (extract_text fs extOf q) "Error" = true
      · have hred : find_and_scan fs extOf basename (q :: rest) =
            find_and_scan fs extOf basename rest := by
          simp [find_and_scan, h]
        rw [hred, ih]
        constructor
        · rintro ⟨hm, hs⟩
          exact ⟨List.mem_cons_of_mem _ hm, hs⟩
        · rintro ⟨hm, hs⟩
          rcases List.mem_cons.mp hm with rfl | hm
          · simp [h] at hs
          · exact ⟨hm, hs⟩
      · have h' : pyStartsWith (extract_text fs extOf q) "Error" = false := by
          rwa [Bool.not_eq_true] at h
        have hred : find_and_scan fs extOf basename (q :: rest) =
            mkDoc basename q (extract_text fs extOf q) ::
              find_and_scan fs extOf basename rest := by
          simp [find_and_scan, h']
        rw [hred]
        constructor
        · rintro ⟨d, hd, rfl⟩
          rcases List.mem_cons.mp hd with rfl | hd
          · exact ⟨List.mem_cons_self _ _, h'⟩
          · obtain ⟨hm, hs⟩ := ih.mp ⟨d, hd, rfl⟩
            exact ⟨List.mem_cons_of_mem _ hm, hs⟩
        · rintro ⟨hm, hs⟩
          rcases List.mem_cons.mp hm with rfl | hm
          · exact ⟨mkDoc basename p (extract_text fs extOf p), List.mem_cons_self _ _, rfl⟩
          · obtain ⟨d, hd, hdp⟩ := ih.mpr ⟨hm, hs⟩
            exact ⟨d, List.mem_cons_of_mem _ hd, hdp⟩
  · intro e
    have : ("Unsupported file format: " ++ e).data =
        'U' :: ("nsupported file format: ".data ++ e.data) := by
      rw [String.data_append]
      rfl
    simp [pyStartsWith, this, List.isPrefixOf]
  · intro r hr ht hm
    simp only [extract_text, hr]
    rw [if_neg]
    simp [ht, hm]
  · intro c hc hsupp
    simp only [extract_text, hc]
    rw [if_pos hsupp]

/-- Witness for C5: one filesystem holding a `.pdf` file and a `.txt`
file whose stripped content starts with `"Error"`; the former is kept as
a `Doc` carrying the unsupported-format message, the latter is skipped. -/
theorem claim_C5_witness :
    (¬ ∃ d ∈ find_and_scan
        (fun p => if p = "a.pdf" then FileRes.present (ReadOutcome.ok "x")
          else FileRes.present (ReadOutcome.ok " Error: boom "))
        (fun p => if p = "a.pdf" then ".pdf" else ".txt") (fun p => p)
        ["a.pdf", "b.txt"], d.file_path = "b.txt") ∧
    (∃ d ∈ find_and_scan
        (fun p => if p = "a.pdf" then FileRes.present (ReadOutcome.ok "x")
          else FileRes.present (ReadOutcome.ok " Error: boom "))
        (fun p => if p = "a.pdf" then ".pdf" else ".txt") (fun p => p)
        ["a.pdf", "b.txt"], d.file_path = "a.pdf") := by
  constructor
  · intro hex
    have h := (claim_C5_error_prefix_filter
        (fun p => if p = "a.pdf" then FileRes.present (ReadOutcome.ok "x")
          else FileRes.present (ReadOutcome.ok " Error: boom "))
        (fun p => if p = "a.pdf" then ".pdf" else ".txt") (fun p => p)
        ["a.pdf", "b.txt"] "b.txt").1.mp hex
    revert h
    decide
  · exact (claim_C5_error_prefix_filter
        (fun p => if p = "a.pdf" then FileRes.present (ReadOutcome.ok "x")
          else FileRes.present (ReadOutcome.ok " Error: boom "))
        (fun p => if p = "a.pdf" then ".pdf" else ".txt") (fun p => p)
        ["a.pdf", "b.txt"] "a.pdf").1.mpr (by decide)

/-! ### Retrieval wrapper theorem (C9) -/

/-- C9.  A blank or whitespace-only question is rejected by the
`retrieve_relevant_chunks` wrapper with the invalid-query error message,
and the output does not depend on the retrieval pipeline or the result
formatter — the query is never embedded and the store is never queried. -/
theorem claim_C9_blank_query (q : String) (h : q = "" ∨ pyStrip q = "")
    (fmt fmt' : RetrievalResult → String)
    (pipe pipe' : String → Nat → RetrievalResult) (k k' : Nat) :
    retrieve_relevant_chunks fmt pipe q k =
      "❌ Error: No user question provided for retrieval" ∧
    retrieve_relevant_chunks fmt pipe q k = retrieve_relevant_chunks fmt' pipe' q k' := by
  unfold retrieve_relevant_chunks
  rw [if_pos h, if_pos h]
  exact ⟨rfl, rfl⟩

/-- Witness for C9 at the whitespace-only question `"  "`. -/
theorem claim_C9_witness :
    ("  " = "" ∨ pyStrip "  " = "") ∧
    retrieve_relevant_chunks (fun _ => "") (fun _ _ => RetrievalResult.error "") "  " 5 =
      "❌ Error: No user question provided for retrieval" :=
  ⟨Or.inr (by decide),
    (claim_C9_blank_query "  " (Or.inr (by decide)) _ (fun _ => "") _
      (fun _ _ => RetrievalResult.error "") 5 5).1⟩

/-! ### Deduplication theorems (C7) -/

/-- The dedup loop never emits a chunk id twice, nor one from `seen`. -/
theorem dedupLoop_nodup (hits : List QueryHit) :
    ∀ seen : List String,
      ((dedupLoop hits seen).map RetrievedChunk.chunk_id).Nodup ∧
      ∀ x ∈ (dedupLoop hits seen).map RetrievedChunk.chunk_id, x ∉ seen := by
  induction hits with
  | nil => intro seen; simp [dedupLoop]
  | cons h rest ih =>
    intro seen
    by_cases hm : h.id ∈ seen
    · simp only [dedupLoop, if_pos hm]
      exact ih seen
    · simp only [dedupLoop, if_neg hm, List.map_cons]
      obtain ⟨hnd, hns⟩ := ih (h.id :: seen)
      constructor
      · rw [List.nodup_cons]
        exact ⟨fun hx => hns _ hx (List.mem_cons_self _ _), hnd⟩
      · intro x hx
        rcases List.mem_cons.mp hx with rfl | hx'
        · exact hm
        · exact fun hxs => hns x hx' (List.mem_cons_of_mem _ hxs)

/-- C7.  For every retrieval call, every store state and every `top_k`,
a successful result's list never contains two entries with the same
`chunk_id`. -/
theorem claim_C7_dedup (encode : String → List ℝ)
    (search : List ℝ → Nat → List QueryHit) (now : Nat) (s : DBState)
    (q : String) (top_k : Nat) (q' : String) (n : Nat) (chunks : List RetrievedChunk)
    (h : (cosine_similarity_and_retrieve encode search now s q top_k).2 =
      RetrievalResult.success q' n chunks) :
    (chunks.map RetrievedChunk.chunk_id).Nodup := by
  unfold cosine_similarity_and_retrieve at h
  by_cases h0 : (init_chroma_db now s).1.contents.length = 0
  · rw [if_pos h0] at h
    exact absurd h (by simp)
  · rw [if_neg h0] at h
    obtain ⟨-, -, hchunks⟩ := RetrievalResult.success.inj h
    rw [← hchunks]
    exact (dedupLoop_nodup _ []).1

/-- Witness for C7: two hits sharing an id collapse to one result row. -/
theorem claim_C7_witness :
    ([{ chunk_id := "a", chunk_text := "da", similarity_score := 1 - (1/2 : ℚ),
        metadata := wMeta }].map RetrievedChunk.chunk_id).Nodup :=
  claim_C7_dedup (fun _ => []) (fun _ _ => [wHit, wHit2]) 5 wState "q" 5 "q" 1
    [{ chunk_id := "a", chunk_text := "da", similarity_score := 1 - (1/2 : ℚ),
        metadata := wMeta }] rfl

/-! ### Normalization theorem (C10) -/

/-- C10.  Every embedding vector produced by the shared
encode-and-normalize path — the encoder output divided coordinatewise by
its own Euclidean norm — has Euclidean norm exactly 1, provided the raw
encoder output is not the zero vector (which is not specially handled). -/
theorem claim_C10_normalization (v : List ℝ) (hv : ∃ x ∈ v, x ≠ 0) :
    l2norm (l2normalize v) = 1 := by
  obtain ⟨x, hxmem, hx0⟩ := hv
  have hx2 : 0 < x ^ 2 := by positivity
  have hmem2 : x ^ 2 ∈ v.map fun y => y ^ 2 := List.mem_map_of_mem _ hxmem
  have hnn : ∀ y ∈ v.map fun y => y ^ 2, 0 ≤ y := by
    intro y hy
    obtain ⟨z, -, rfl⟩ := List.mem_map.mp hy
    positivity
  have hSpos : 0 < (v.map fun y => y ^ 2).sum :=
    lt_of_lt_of_le hx2 (List.single_le_sum hnn _ hmem2)
  have hn2 : l2norm v ^ 2 = (v.map fun y => y ^ 2).sum := by
    have : l2norm v = Real.sqrt ((v.map fun y => y ^ 2).sum) := rfl
    rw [this, Real.sq_sqrt hSpos.le]
  have hmapped : (l2normalize v).map (fun y => y ^ 2) =
      v.map fun y => y ^ 2 * (l2norm v ^ 2)⁻¹ := by
    simp [l2normalize, List.map_map, Function.comp, div_eq_mul_inv, mul_pow, inv_pow]
  have hsum : ((l2normalize v).map fun y => y ^ 2).sum = 1 := by
    rw [hmapped]
    have := List.sum_map_mul_right v (fun y => y ^ 2) ((l2norm v ^ 2)⁻¹)
    rw [this, hn2, mul_inv_cancel₀ hSpos.ne']
  have : l2norm (l2normalize v) =
      Real.sqrt (((l2normalize v).map fun y => y ^ 2).sum) := rfl
  rw [this, hsum, Real.sqrt_one]

/-- Witness for C10 at the vector `[3, 4]`. -/
theorem claim_C10_witness :
    (∃ x ∈ [(3 : ℝ), 4], x ≠ 0) ∧ l2norm (l2normalize [(3 : ℝ), 4]) = 1 :=
  ⟨⟨3, List.mem_cons_self _ _, three_ne_zero⟩,
    claim_C10_normalization [(3 : ℝ), 4] ⟨3, List.mem_cons_self _ _, three_ne_zero⟩⟩

/-! ### Query contract theorems (C1) -/

/-- Every row the dedup loop emits comes from some hit, with similarity
score `1 - distance` of that hit. -/
theorem dedupLoop_mem (hits : List QueryHit) :
    ∀ seen, ∀ c ∈ dedupLoop hits seen,
      ∃ h ∈ hits, c.chunk_id = h.id ∧ c.similarity_score = 1 - h.distance := by
  induction hits with
  | nil => intro seen c hc; simp [dedupLoop] at hc
  | cons h rest ih =>
    intro seen c hc
    by_cases hm : h.id ∈ seen
    · simp only [dedupLoop, if_pos hm] at hc
      obtain ⟨h', hh', hp⟩ := ih seen c hc
      exact ⟨h', List.mem_cons_of_mem _ hh', hp⟩
    · simp only [dedupLoop, if_neg hm] at hc
      rcases List.mem_cons.mp hc with rfl | hc'
      · exact ⟨h, List.mem_cons_self _ _, rfl, rfl⟩
      · obtain ⟨h', hh', hp⟩ := ih _ c hc'
        exact ⟨h', List.mem_cons_of_mem _ hh', hp⟩

/-- C1.  A query against a collection holding zero vectors fails with the
empty-collection error; otherwise exactly `min(top_k, collection_size)`
nearest neighbors are requested from the underlying index, and every
returned row carries a similarity score equal to `1 -` the cosine
distance of its hit. -/
theorem claim_C1_query_contract (encode : String → List ℝ)
    (search : List ℝ → Nat → List QueryHit) (now : Nat) (s : DBState)
    (q : String) (top_k : Nat) :
    ((init_chroma_db now s).1.contents.length = 0 →
      (cosine_similarity_and_retrieve encode search now s q top_k).2 =
        RetrievalResult.error "No documents found in vector database") ∧
    ((init_chroma_db now s).1.contents.length ≠ 0 →
      (cosine_similarity_and_retrieve encode search now s q top_k).2 =
        RetrievalResult.success q (init_chroma_db now s).1.contents.length
          (dedupLoop (search (vectorize_user_query encode q)
            (min top_k (init_chroma_db now s).1.contents.length)) []) ∧
      ∀ c ∈ dedupLoop (search (vectorize_user_query encode q)
            (min top_k (init_chroma_db now s).1.contents.length)) [],
        ∃ h ∈ search (vectorize_user_query encode q)
            (min top_k (init_chroma_db now s).1.contents.length),
          c.chunk_id = h.id ∧ c.similarity_score = 1 - h.distance) := by
  constructor
  · intro h0
    simp [cosine_similarity_and_retrieve, h0]
  · intro h0
    refine ⟨by simp [cosine_similarity_and_retrieve, h0], ?_⟩
    intro c hc
    exact dedupLoop_mem _ [] c hc

/-- Witness for C1: a one-vector collection queried with `top_k = 5`
requests `min 5 1` neighbors and succeeds. -/
theorem claim_C1_witness :
    (init_chroma_db 5 wState).1.contents.length ≠ 0 ∧
    (cosine_similarity_and_retrieve (fun _ => []) (fun _ _ => [wHit, wHit2]) 5 wState
        "q" 5).2 =
      RetrievalResult.success "q" 1 (dedupLoop [wHit, wHit2] []) :=
  ⟨by decide,
    ((claim_C1_query_contract (fun _ => []) (fun _ _ => [wHit, wHit2]) 5 wState "q" 5).2
      (by decide)).1⟩

/-! ### TTL rotation theorems (C3) -/

/-- Invariant of the store session: while a client exists, the recorded
expiry is exactly `created + dbTTL`. -/
def goodState (s : DBState) : Prop := s.hasClient = true → s.expiry = s.created + dbTTL

theorem initState_good : goodState initState := by
  intro h
  simp [initState] at h

theorem access_good (now : Nat) (s : DBState) (hs : goodState s) :
    goodState (init_chroma_db now s).1 := by
  unfold init_chroma_db
  by_cases h : s.hasClient = true ∧ s.expiry ≠ 0 ∧ now < s.expiry
  · rw [if_pos h]; exact hs
  · rw [if_neg h]; intro _; rfl

theorem access_created_eq (now : Nat) (s : DBState) :
    (init_chroma_db now s).2 = (init_chroma_db now s).1.created := by
  unfold init_chroma_db
  by_cases h : s.hasClient = true ∧ s.expiry ≠ 0 ∧ now < s.expiry
  · rw [if_pos h]
  · rw [if_neg h]

theorem access_hasClient (now : Nat) (s : DBState) :
    (init_chroma_db now s).1.hasClient = true := by
  unfold init_chroma_db
  by_cases h : s.hasClient = true ∧ s.expiry ≠ 0 ∧ now < s.expiry
  · rw [if_pos h]; exact h.1
  · rw [if_neg h]

theorem access_expiry_ne (now : Nat) (s : DBState) :
    (init_chroma_db now s).1.expiry ≠ 0 := by
  unfold init_chroma_db
  by_cases h : s.hasClient = true ∧ s.expiry ≠ 0 ∧ now < s.expiry
  · rw [if_pos h]; exact h.2.1
  · rw [if_neg h]; simp only [dbTTL]; omega

theorem access_le (now : Nat) (s : DBState)
    (hb : s.hasClient = true → s.created ≤ now) :
    (init_chroma_db now s).2 ≤ now := by
  unfold init_chroma_db
  by_cases h : s.hasClient = true ∧ s.expiry ≠ 0 ∧ now < s.expiry
  · rw [if_pos h]; exact hb h.1
  · rw [if_neg h]

theorem access_created_le (now : Nat) (s : DBState)
    (hb : s.hasClient = true → s.created ≤ now) :
    (init_chroma_db now s).1.created ≤ now := by
  rw [← access_created_eq]
  exact access_le now s hb

theorem access_lower (now : Nat) (s : DBState) (hs : goodState s) :
    now < (init_chroma_db now s).2 + dbTTL := by
  unfold init_chroma_db
  by_cases h : s.hasClient = true ∧ s.expiry ≠ 0 ∧ now < s.expiry
  · rw [if_pos h]
    have := hs h.1
    omega
  · rw [if_neg h]; simp only [dbTTL]; omega

theorem runAccs_length (ts : List Nat) : ∀ s, (runAccs s ts).2.length = ts.length := by
  induction ts with
  | nil => intro s; rfl
  | cons t ts' ih => intro s; simp [runAccs, ih]

theorem runAccs_lower (ts : List Nat) :
    ∀ s, goodState s → ∀ k, k < ts.length →
      ts.getD k 0 < ((runAccs s ts).2).getD k 0 + dbTTL := by
  induction ts with
  | nil => intro s _ k hk; simp at hk
  | cons t ts' ih =>
    intro s hs k hk
    cases k with
    | zero => simpa [runAccs] using access_lower t s hs
    | succ k =>
      have := ih (init_chroma_db t s).1 (access_good t s hs) k (by simpa using hk)
      simpa [runAccs] using this

theorem runAccs_upper (ts : List Nat) :
    ∀ s, (∀ t ∈ ts, s.hasClient = true → s.created ≤ t) → ts.Pairwise (· ≤ ·) →
      ∀ k, k < ts.length → ((runAccs s ts).2).getD k 0 ≤ ts.getD k 0 := by
  induction ts with
  | nil => intro s _ _ k hk; simp at hk
  | cons t ts' ih =>
    intro s hb hp k hk
    obtain ⟨hple, hp'⟩ := List.pairwise_cons.mp hp
    cases k with
    | zero =>
      simpa [runAccs] using access_le t s (fun h => hb t (List.mem_cons_self _ _) h)
    | succ k =>
      have hb' : ∀ t' ∈ ts', (init_chroma_db t s).1.hasClient = true →
          (init_chroma_db t s).1.created ≤ t' := by
        intro t' ht' _
        exact le_trans
          (access_created_le t s (fun h => hb t (List.mem_cons_self _ _) h))
          (hple t' ht')
      have := ih (init_chroma_db t s).1 hb' hp' k (by simpa using hk)
      simpa [runAccs] using this

theorem init_keep (now : Nat) (s : DBState)
    (h : s.hasClient = true ∧ s.expiry ≠ 0 ∧ now < s.expiry) :
    init_chroma_db now s = (s, s.created) := by
  unfold init_chroma_db
  rw [if_pos h]

theorem getD_map_collName (l : List Nat) :
    ∀ i : Nat, i < l.length → (l.map collName).getD i "" = collName (l.getD i 0) := by
  induction l with
  | nil => intro i hi; simp at hi
  | cons a t ih =>
    intro i hi
    cases i with
    | zero => simp
    | succ i => simpa using ih i (by simpa using hi)

/-- C3, amended.  Rotation happens exactly when no collection exists, the
expiry is unset, or `now >= expires_at`; rotation resets the TTL window
from the creation moment; an access made before the expiry of the
collection returned by a previous access yields the same collection (and
hence the same name); and any two accesses of a monotone access sequence
separated by more than the TTL window return different collection names.
(The original claim's stronger clause — that ANY two accesses separated by
less than the TTL window return the same name — fails: an access can
cross the current collection's expiry while being close in time to the
previous access; see the counterexample.) -/
theorem claim_C3_ttl_rotation_amended :
    (∀ (now : Nat) (s : DBState),
      init_chroma_db now s = (s, s.created) ↔
        (s.hasClient = true ∧ s.expiry ≠ 0 ∧ now < s.expiry)) ∧
    (∀ (now : Nat) (s : DBState),
      ¬(s.hasClient = true ∧ s.expiry ≠ 0 ∧ now < s.expiry) →
        (init_chroma_db now s).1.created = now ∧
        (init_chroma_db now s).1.expiry = now + dbTTL ∧
        (init_chroma_db now s).2 = now) ∧
    (∀ (now t₂ : Nat) (s : DBState), t₂ < (init_chroma_db now s).1.expiry →
      init_chroma_db t₂ (init_chroma_db now s).1 =
        ((init_chroma_db now s).1, (init_chroma_db now s).2)) ∧
    (∀ ts : List Nat, ts.Pairwise (· ≤ ·) → ∀ i j : Nat, i < j → j < ts.length →
      ts.getD i 0 + dbTTL < ts.getD j 0 →
      (runNames initState ts).getD i "" ≠ (runNames initState ts).getD j "") := by
  refine ⟨?_, ?_, ?_, ?_⟩
  · intro now s
    constructor
    · intro h
      by_cases hc : s.hasClient = true ∧ s.expiry ≠ 0 ∧ now < s.expiry
      · exact hc
      · exfalso
        apply hc
        unfold init_chroma_db at h
        rw [if_neg hc, Prod.mk.injEq] at h
        obtain ⟨h1, -⟩ := h
        rw [← h1]
        exact ⟨rfl, by simp only [dbTTL]; omega, by simp only [dbTTL]; omega⟩
    · intro hc
      exact init_keep now s hc
  · intro now s hc
    unfold init_chroma_db
    rw [if_neg hc]
    exact ⟨rfl, rfl, rfl⟩
  · intro now t₂ s h2
    rw [init_keep t₂ _ ⟨access_hasClient now s, access_expiry_ne now s, h2⟩,
      access_created_eq]
  · intro ts hp i j hij hj hsep
    have hi : i < ts.length := lt_trans hij hj
    have hlen : (runAccs initState ts).2.length = ts.length := runAccs_length ts initState
    have hci : ((runAccs initState ts).2).getD i 0 ≤ ts.getD i 0 :=
      runAccs_upper ts initState (by intro t _ h; simp [initState] at h) hp i hi
    have hcj : ts.getD j 0 < ((runAccs initState ts).2).getD j 0 + dbTTL :=
      runAccs_lower ts initState initState_good j hj
    have hne : ((runAccs initState ts).2).getD i 0 ≠ ((runAccs initState ts).2).getD j 0 := by
      omega
    rw [runNames, getD_map_collName _ i (hlen ▸ hi), getD_map_collName _ j (hlen ▸ hj)]
    exact fun hcontra => hne (collName_injective hcontra)

/-- Counterexample refuting C3 as stated: the second and third accesses
of the trace `[0, 1190, 1210]` are 20 seconds apart — far less than the
20-minute TTL — yet return different collection names, because the third
access crosses the expiry of the collection created at time 0. -/
theorem claim_C3_counterexample :
    (runNames initState [0, 1190, 1210]).getD 1 "" = "documents_0" ∧
    (runNames initState [0, 1190, 1210]).getD 2 "" = "documents_1210" ∧
    1210 - 1190 < dbTTL ∧
    ("documents_0" : String) ≠ "documents_1210" := by decide

/-- Witness for the amended C3: a live collection is returned unchanged,
and two accesses more than a TTL apart get different names. -/
theorem claim_C3_witness :
    init_chroma_db 5 { hasClient := true, created := 0, expiry := 1200, contents := [] } =
      ({ hasClient := true, created := 0, expiry := 1200, contents := [] }, 0) ∧
    (runNames initState [0, 1300]).getD 0 "" ≠ (runNames initState [0, 1300]).getD 1 "" :=
  ⟨(claim_C3_ttl_rotation_amended.1 5 _).mpr ⟨rfl, by decide, by decide⟩,
    claim_C3_ttl_rotation_amended.2.2.2 [0, 1300] (by decide) 0 1 (by decide) (by decide)
      (by decide)⟩

/-! ### Chunker theorems (C2) -/

theorem length_dropWhile_le (p : Char → Bool) (l : List Char) :
    (l.dropWhile p).length ≤ l.length := by
  induction l with
  | nil => simp
  | cons a t ih =>
    rw [List.dropWhile_cons]
    by_cases hp : p a
    · rw [if_pos hp]; exact le_trans ih (Nat.le_succ _)
    · rw [if_neg hp]

theorem dropWhile_eq_self_of_length_le (p : Char → Bool) (l : List Char)
    (h : l.length ≤ (l.dropWhile p).length) : l.dropWhile p = l := by
  induction l with
  | nil => rfl
  | cons a t ih =>
    rw [List.dropWhile_cons] at h ⊢
    by_cases hp : p a
    · rw [if_pos hp] at h
      have := length_dropWhile_le p t
      simp at h
      omega
    · rw [if_neg hp]

theorem dropWhile_append_of_ne_nil (p : Char → Bool) (u v : List Char)
    (h : u.dropWhile p ≠ []) : (u ++ v).dropWhile p = u.dropWhile p ++ v := by
  induction u with
  | nil => simp at h
  | cons a t ih =>
    by_cases hp : p a = true
    · simp only [List.dropWhile_cons, hp, if_true] at h
      simp only [List.cons_append, List.dropWhile_cons, hp, if_true]
      exact ih h
    · have hpf : p a = false := by rwa [Bool.not_eq_true] at hp
      simp [List.dropWhile_cons, hpf]

theorem stripChars_eq_self (l : List Char)
    (h1 : l.dropWhile wsp = l) (h2 : l.reverse.dropWhile wsp = l.reverse) :
    stripChars l = l := by
  unfold stripChars
  rw [h1, h2, List.reverse_reverse]

theorem stripChars_parts (l : List Char) (h : stripChars l = l) :
    l.dropWhile wsp = l ∧ l.reverse.dropWhile wsp = l.reverse := by
  have hlen : (stripChars l).length ≤ (l.dropWhile wsp).length := by
    unfold stripChars
    rw [List.length_reverse]
    calc ((l.dropWhile wsp).reverse.dropWhile wsp).length
        ≤ (l.dropWhile wsp).reverse.length := length_dropWhile_le _ _
      _ = (l.dropWhile wsp).length := List.length_reverse _
  rw [h] at hlen
  have hfront : l.dropWhile wsp = l := dropWhile_eq_self_of_length_le _ _ hlen
  refine ⟨hfront, ?_⟩
  have hform : stripChars l = (l.reverse.dropWhile wsp).reverse := by
    unfold stripChars
    rw [hfront]
  rw [h] at hform
  have hrev := congrArg List.reverse hform
  rw [List.reverse_reverse] at hrev
  exact hrev.symm

theorem joinCharsSp_wellformed (l : List (List Char)) :
    (∀ w ∈ l, w ≠ [] ∧ w.dropWhile wsp = w ∧ w.reverse.dropWhile wsp = w.reverse) →
    l ≠ [] →
    joinCharsSp l ≠ [] ∧ (joinCharsSp l).dropWhile wsp = joinCharsSp l ∧
      (joinCharsSp l).reverse.dropWhile wsp = (joinCharsSp l).reverse := by
  induction l with
  | nil => intro _ hne; cases hne rfl
  | cons a l' ih =>
    intro hl _
    cases l' with
    | nil => exact hl a (List.mem_cons_self _ _)
    | cons b t =>
      obtain ⟨ha1, ha2, ha3⟩ := hl a (List.mem_cons_self _ _)
      obtain ⟨hj1, hj2, hj3⟩ :=
        ih (fun w hw => hl w (List.mem_cons_of_mem _ hw)) (List.cons_ne_nil _ _)
      have hjoin : joinCharsSp (a :: b :: t) =
          a ++ spaceChar :: joinCharsSp (b :: t) := rfl
      refine ⟨?_, ?_, ?_⟩
      · rw [hjoin]
        intro hcontra
        rcases List.append_eq_nil.mp hcontra with ⟨-, h2⟩
        cases h2
      · rw [hjoin, dropWhile_append_of_ne_nil wsp a _ (by rw [ha2]; exact ha1), ha2]
      · rw [hjoin, List.reverse_append, List.reverse_cons, List.append_assoc,
          dropWhile_append_of_ne_nil wsp (joinCharsSp (b :: t)).reverse _
            (by rw [hj3]; simpa using hj1),
          hj3]

theorem pyStrip_joinSp (w : List String) (hw : w ≠ [])
    (h : ∀ s ∈ w, s.data ≠ [] ∧ stripChars s.data = s.data) :
    pyStrip (joinSp w) = joinSp w ∧ joinSp w ≠ "" := by
  have hl : ∀ x ∈ w.map String.data,
      x ≠ [] ∧ x.dropWhile wsp = x ∧ x.reverse.dropWhile wsp = x.reverse := by
    intro x hx
    obtain ⟨s, hs, rfl⟩ := List.mem_map.mp hx
    obtain ⟨h1, h2⟩ := h s hs
    obtain ⟨h3, h4⟩ := stripChars_parts _ h2
    exact ⟨h1, h3, h4⟩
  have hne : w.map String.data ≠ [] := by simpa using hw
  obtain ⟨j1, j2, j3⟩ := joinCharsSp_wellformed _ hl hne
  have hdata : (joinSp w).data = joinCharsSp (w.map String.data) := rfl
  constructor
  · show (⟨stripChars (joinSp w).data⟩ : String) = joinSp w
    rw [hdata, stripChars_eq_self _ j2 j3]
    rfl
  · intro hcontra
    apply j1
    rw [← hdata, hcontra]

theorem windows_ne_nil {α : Type _} (n : Nat) (a : α) (rest : List α) :
    windows (n + 1) (a :: rest) ≠ [] := by
  rw [windows]
  simp

theorem windows_flatten {α : Type _} (n : Nat) (l : List α) :
    (windows (n + 1) l).flatten = l := by
  induction l using windows.induct (n := n + 1) with
  | case1 => simp [windows]
  | case2 a rest ih =>
    rw [windows]
    simp only [List.flatten_cons, Nat.add_sub_cancel] at ih ⊢
    rw [ih, List.take_succ_cons]
    simp [List.take_append_drop]

theorem windows_dropLast_len {α : Type _} (n : Nat) (l : List α) :
    ∀ w ∈ (windows (n + 1) l).dropLast, w.length = n + 1 := by
  induction l using windows.induct (n := n + 1) with
  | case1 => simp [windows]
  | case2 a rest ih =>
    rw [windows]
    intro w hw
    simp only [Nat.add_sub_cancel] at ih hw ⊢
    cases hd : rest.drop n with
    | nil =>
      rw [hd] at hw
      simp [windows] at hw
    | cons b t =>
      rw [hd] at hw ih
      rw [List.dropLast_cons_of_ne_nil (windows_ne_nil n b t)] at hw
      rcases List.mem_cons.mp hw with rfl | hw'
      · have hlen : n < rest.length := by
          by_contra hc
          rw [List.drop_eq_nil_of_le (by omega)] at hd
          cases hd
        simp [List.length_take]
        omega
      · exact ih w hw'

theorem buildChunksF_eq_map (fuel : Nat) :
    ∀ sents : List String, sents.length ≤ fuel →
      (∀ s ∈ sents, s.data ≠ [] ∧ stripChars s.data = s.data) →
      buildChunksF fuel sents = (windows chunkSize sents).map joinSp := by
  induction fuel with
  | zero =>
    intro sents hlen _
    have hnil : sents = [] := List.eq_nil_of_length_eq_zero (by omega)
    subst hnil
    simp [buildChunksF, windows]
  | succ fuel ih =>
    intro sents hlen h
    cases sents with
    | nil => simp [buildChunksF, windows]
    | cons s rest =>
      have hsub : ∀ x ∈ rest.drop (chunkSize - 1),
          x.data ≠ [] ∧ stripChars x.data = x.data := by
        intro x hx
        exact h x (List.mem_cons_of_mem _ (List.drop_subset _ _ hx))
      have hwne : (s :: rest).take chunkSize ≠ [] := by simp [chunkSize]
      have hmem : ∀ x ∈ (s :: rest).take chunkSize,
          x.data ≠ [] ∧ stripChars x.data = x.data :=
        fun x hx => h x (List.take_subset _ _ hx)
      obtain ⟨hstrip, hne⟩ := pyStrip_joinSp _ hwne hmem
      have hcond : ¬ pyStrip (joinSp ((s :: rest).take chunkSize)) = "" := by
        rw [hstrip]; exact hne
      have hlen' : (rest.drop (chunkSize - 1)).length ≤ fuel := by
        simp only [List.length_drop, List.length_cons] at hlen ⊢
        omega
      simp only [buildChunksF]
      rw [windows]
      simp only [List.map_cons]
      rw [if_neg hcond, hstrip, ih _ hlen' hsub]

theorem buildChunks_eq_map (sents : List String)
    (h : ∀ s ∈ sents, s.data ≠ [] ∧ stripChars s.data = s.data) :
    buildChunks sents = (windows chunkSize sents).map joinSp :=
  buildChunksF_eq_map sents.length sents le_rfl h

/-- C2.  Under the sentence tokenizer's output discipline (each sentence
nonempty and free of leading/trailing whitespace), the chunk list is
exactly the non-overlapping windows of 4 consecutive sentences, in order,
each joined with single spaces (the empty-chunk filter never fires);
every window except possibly the last holds exactly 4 sentences, and the
windows concatenate back to the full sentence sequence with nothing
dropped, duplicated or reordered. -/
theorem claim_C2_chunker_windows (sents : List String)
    (h : ∀ s ∈ sents, s.data ≠ [] ∧ stripChars s.data = s.data) :
    buildChunks sents = (windows chunkSize sents).map joinSp ∧
    (windows chunkSize sents).flatten = sents ∧
    ∀ w ∈ (windows chunkSize sents).dropLast, w.length = chunkSize := by
  refine ⟨buildChunks_eq_map sents h, windows_flatten 3 sents, windows_dropLast_len 3 sents⟩

/-- Witness for C2 on a five-sentence document: the sentences are
well-formed, so the theorem applies (two windows of sizes 4 and 1). -/
theorem claim_C2_witness :
    (∀ s ∈ ["A.", "B b.", "C.", "D.", "E."],
      s.data ≠ [] ∧ stripChars s.data = s.data) ∧
    (buildChunks ["A.", "B b.", "C.", "D.", "E."] =
      (windows chunkSize ["A.", "B b.", "C.", "D.", "E."]).map joinSp ∧
    (windows chunkSize ["A.", "B b.", "C.", "D.", "E."]).flatten =
      ["A.", "B b.", "C.", "D.", "E."] ∧
    ∀ w ∈ (windows chunkSize ["A.", "B b.", "C.", "D.", "E."]).dropLast,
      w.length = chunkSize) :=
  ⟨by decide, claim_C2_chunker_windows ["A.", "B b.", "C.", "D.", "E."] (by decide)⟩

/-! ### Embedding-path equivalence theorems (C8) -/

theorem batchZip_mem (doc : Doc) (total : Nat) (f : String → List ℝ) :
    ∀ (i : Nat) (ts : List String) (ci : ChunkInfo),
      ci ∈ batchZip doc total i ts (ts.map f) → ci.embedding = f ci.chunk_text := by
  intro i ts
  induction ts generalizing i with
  | nil => intro ci hci; simp [batchZip] at hci
  | cons t ts' ih =>
    intro ci hci
    simp only [List.map_cons, batchZip] at hci
    rcases List.mem_cons.mp hci with rfl | hci'
    · rfl
    · exact ih (i + 1) ci hci'

theorem batchLoopF_mem (encode : String → List ℝ) (doc : Doc) (total : Nat) :
    ∀ (fuel start : Nat) (cs : List String), ∀ ci ∈ batchLoopF encode doc total fuel start cs,
      ci.embedding = l2normalize (encode ci.chunk_text) := by
  intro fuel
  induction fuel with
  | zero =>
    intro start cs ci hci
    cases cs <;> simp [batchLoopF] at hci
  | succ fuel ih =>
    intro start cs ci hci
    cases cs with
    | nil => simp [batchLoopF] at hci
    | cons c rest =>
      simp only [batchLoopF] at hci
      rcases List.mem_append.mp hci with hz | hl
      · exact batchZip_mem doc total _ start _ ci hz
      · exact ih _ _ ci hl

/-- C8.  The embedding attached to every produced chunk equals the query
embedding that `vectorize_user_query` would produce for the chunk's text:
both paths apply the same tokenizer-plus-encoder (`encode`) and the same
division by the Euclidean norm, so query and chunk vectors are
vector-space compatible. -/
theorem claim_C8_query_chunk_embedding (encode : String → List ℝ)
    (sentTok : String → List String) (docs : List Doc) (ci : ChunkInfo)
    (hci : ci ∈ chunk_and_vectorize encode sentTok docs) :
    ci.embedding = vectorize_user_query encode ci.chunk_text := by
  have hvq : vectorize_user_query encode ci.chunk_text =
      l2normalize (encode ci.chunk_text) := rfl
  rw [hvq]
  simp only [chunk_and_vectorize, List.mem_flatMap] at hci
  obtain ⟨doc, -, hmem⟩ := hci
  by_cases hch : (buildChunks (sentTok doc.text_content)).isEmpty
  · rw [if_pos hch] at hmem
    simp at hmem
  · rw [if_neg hch] at hmem
    exact batchLoopF_mem encode doc _ _ 0 _ ci hmem

/-- Witness for C8: the single chunk of a one-sentence document carries
exactly the embedding the query path computes for its text. -/
theorem claim_C8_witness :
    (mkInfo wDoc 1 0 "Hello." (l2normalize [])).embedding =
      vectorize_user_query (fun _ => [])
        (mkInfo wDoc 1 0 "Hello." (l2normalize [])).chunk_text :=
  claim_C8_query_chunk_embedding (fun _ => []) (fun t => [t]) [wDoc]
    (mkInfo wDoc 1 0 "Hello." (l2normalize [])) (List.mem_cons_self _ _)

/-! ### Ingestion staging theorems (C6) -/

/-- C6.  The ingestion stages run strictly in sequence and any empty
intermediate result terminates the call as an error with no store write:
an empty input path list is rejected by the tool wrapper, zero scanned
documents and zero produced chunks abort with their respective errors
leaving the store state untouched, a store write failure propagates the
store's error, and on success the result reports the final chunk count
and the resolved collection name while the chunks are appended to the
active collection. -/
theorem claim_C6_ingest_stages (fs : String → FileRes) (extOf basename : String → String)
    (encode : String → List ℝ) (sentTok : String → List String) (now : Nat)
    (addErr : Option String) (s : DBState) (paths : List String) :
    (paths = [] →
      ingest_documents fs extOf basename encode sentTok now addErr s paths =
        (s, "Error: No file paths provided for ingestion")) ∧
    (find_and_scan fs extOf basename paths = [] →
      ingest_documents_pipeline fs extOf basename encode sentTok now addErr s paths =
        (s, PipeResult.err "No documents could be processed")) ∧
    (find_and_scan fs extOf basename paths ≠ [] →
      chunk_and_vectorize encode sentTok (find_and_scan fs extOf basename paths) = [] →
      ingest_documents_pipeline fs extOf basename encode sentTok now addErr s paths =
        (s, PipeResult.err "No chunks could be vectorized")) ∧
    (∀ e, addErr = some e →
      find_and_scan fs extOf basename paths ≠ [] →
      chunk_and_vectorize encode sentTok (find_and_scan fs extOf basename paths) ≠ [] →
      ingest_documents_pipeline fs extOf basename encode sentTok now addErr s paths =
        ((init_chroma_db now s).1,
          PipeResult.err ("Error storing in vector DB: " ++ e))) ∧
    (addErr = none →
      find_and_scan fs extOf basename paths ≠ [] →
      chunk_and_vectorize encode sentTok (find_and_scan fs extOf basename paths) ≠ [] →
      ingest_documents_pipeline fs extOf basename encode sentTok now addErr s paths =
        ({ (init_chroma_db now s).1 with
            contents := (init_chroma_db now s).1.contents ++
              chunk_and_vectorize encode sentTok (find_and_scan fs extOf basename paths) },
          PipeResult.ok
            ("Successfully stored " ++
              Nat.repr (chunk_and_vectorize encode sentTok
                (find_and_scan fs extOf basename paths)).length ++
              " chunks in vector DB")
            (chunk_and_vectorize encode sentTok
              (find_and_scan fs extOf basename paths)).length
            (collName (init_chroma_db now s).2))) := by
  refine ⟨?_, ?_, ?_, ?_, ?_⟩
  · intro hp
    simp [ingest_documents, hp]
  · intro hd
    simp [ingest_documents_pipeline, hd]
  · intro hd hc
    have hd' : (find_and_scan fs extOf basename paths).isEmpty = false := by
      simpa using hd
    simp [ingest_documents_pipeline, hd', hc]
  · intro e he hd hc
    have hd' : (find_and_scan fs extOf basename paths).isEmpty = false := by
      simpa using hd
    have hc' : (chunk_and_vectorize encode sentTok
        (find_and_scan fs extOf basename paths)).isEmpty = false := by
      simpa using hc
    simp [ingest_documents_pipeline, hd', hc', push_to_db, he]
  · intro he hd hc
    have hd' : (find_and_scan fs extOf basename paths).isEmpty = false := by
      simpa using hd
    have hc' : (chunk_and_vectorize encode sentTok
        (find_and_scan fs extOf basename paths)).isEmpty = false := by
      simpa using hc
    simp [ingest_documents_pipeline, hd', hc', push_to_db, he]

/-- Witness for C6: a successful ingest of one `.txt` file reports its
chunk count and the active collection's name. -/
theorem claim_C6_witness :
    ((none : Option String) = none ∧
      find_and_scan (fun _ => FileRes.present (ReadOutcome.ok "Hi."))
        (fun _ => ".txt") (fun p => p) ["a.txt"] ≠ []) ∧
    ingest_documents_pipeline (fun _ => FileRes.present (ReadOutcome.ok "Hi."))
        (fun _ => ".txt") (fun p => p) (fun _ => []) (fun t => [t]) 5 none
        initState ["a.txt"] =
      ({ (init_chroma_db 5 initState).1 with
          contents := (init_chroma_db 5 initState).1.contents ++
            chunk_and_vectorize (fun _ => []) (fun t => [t])
              (find_and_scan (fun _ => FileRes.present (ReadOutcome.ok "Hi."))
                (fun _ => ".txt") (fun p => p) ["a.txt"]) },
        PipeResult.ok
          ("Successfully stored " ++
            Nat.repr (chunk_and_vectorize (fun _ => []) (fun t => [t])
              (find_and_scan (fun _ => FileRes.present (ReadOutcome.ok "Hi."))
                (fun _ => ".txt") (fun p => p) ["a.txt"])).length ++
            " chunks in vector DB")
          (chunk_and_vectorize (fun _ => []) (fun t => [t])
            (find_and_scan (fun _ => FileRes.present (ReadOutcome.ok "Hi."))
              (fun _ => ".txt") (fun p => p) ["a.txt"])).length
          (collName (init_chroma_db 5 initState).2)) :=
  ⟨⟨rfl, by decide⟩,
    (claim_C6_ingest_stages (fun _ => FileRes.present (ReadOutcome.ok "Hi."))
        (fun _ => ".txt") (fun p => p) (fun _ => []) (fun t => [t]) 5 none
        initState ["a.txt"]).2.2.2.2 rfl (by decide) (List.cons_ne_nil _ _)⟩

end RagMcp
